import Mathlib

/-!
Verification of the Etsy SEO helper application (src/app.py).

The Python source is shallowly embedded: strings are Lean Strings
(processed as lists of Chars), Python dicts are association lists,
JSON values are an inductive type, and the regex-based cleanup steps
of the source are embedded as structurally recursive scanners that
implement the exact left-to-right, non-overlapping substitution
semantics of Python re.sub for the concrete patterns appearing in
the source.
-/

namespace EtsySeo

/-- Python whitespace class for the ASCII range, as matched by the
regex class backslash-s and by str.strip(): space, tab, newline,
carriage return, vertical tab, form feed.  (Python also treats some
non-ASCII Unicode spaces as whitespace; the embedding covers the
ASCII range, which is what every literal in the source uses.) -/
def pyWs (c : Char) : Bool :=
  c = ' ' || c = '\t' || c = '\n' || c = '\r' || c = '\x0b' || c = '\x0c'

/-- Python str.lower restricted to ASCII letters: uppercase ASCII
letters map to their lowercase counterparts, all other characters are
unchanged.  (Python str.lower also folds non-ASCII letters; the
embedding covers the ASCII range used by the source's literals.) -/
def pyLowerChar (c : Char) : Char :=
  match c with
  | 'A' => 'a' | 'B' => 'b' | 'C' => 'c' | 'D' => 'd' | 'E' => 'e'
  | 'F' => 'f' | 'G' => 'g' | 'H' => 'h' | 'I' => 'i' | 'J' => 'j'
  | 'K' => 'k' | 'L' => 'l' | 'M' => 'm' | 'N' => 'n' | 'O' => 'o'
  | 'P' => 'p' | 'Q' => 'q' | 'R' => 'r' | 'S' => 's' | 'T' => 't'
  | 'U' => 'u' | 'V' => 'v' | 'W' => 'w' | 'X' => 'x' | 'Y' => 'y'
  | 'Z' => 'z'
  | c => c

/-- str.lower on a whole string. -/
def pyLowerStr (s : String) : String := ⟨s.data.map pyLowerChar⟩

/-- Drop trailing characters satisfying p (the right half of
Python str.strip). -/
def rstripP (p : Char → Bool) : List Char → List Char
  | [] => []
  | c :: rest =>
    match rstripP p rest with
    | [] => if p c then [] else [c]
    | d :: ds => c :: d :: ds

/-- Python str.strip(chars): drop leading and trailing characters
satisfying p. -/
def stripBy (p : Char → Bool) (l : List Char) : List Char :=
  rstripP p (l.dropWhile p)

/-- Python str.strip() with no argument (whitespace strip), on char
lists. -/
def pyStrip (l : List Char) : List Char := stripBy pyWs l

/-- str.strip() on Strings. -/
def pyStripStr (s : String) : String := ⟨pyStrip s.data⟩

/-- Scanner for re.sub of one-or-more whitespace to a single space.
The flag records whether the scanner is inside a whitespace run whose
replacement space was already emitted. -/
def collapseAux : Bool → List Char → List Char
  | _, [] => []
  | b, c :: rest =>
    if pyWs c then
      if b then collapseAux true rest
      else ' ' :: collapseAux true rest
    else c :: collapseAux false rest

/-- re.sub of one-or-more whitespace to a single space: every maximal
whitespace run becomes one space. -/
def pyCollapse (l : List Char) : List Char := collapseAux false l

/-- clean_kw from app.py lines 106-109: strip, then collapse internal
whitespace runs to single spaces.  The Python parameter may be None,
which the source maps to the empty string with the or-operator; the
Option-lifted version is cleanKwOpt below. -/
def clean_kw (s : String) : String := ⟨pyCollapse (pyStrip s.data)⟩

/-- clean_kw lifted to an optional (possibly None) argument, as the
source's use of the or-operator allows. -/
def cleanKwOpt (s : Option String) : String := clean_kw (s.getD "")

/-- Python str.split on a comma: the accumulator holds the current
part reversed; every comma ends a part, and the final part is always
emitted (so the empty string splits to one empty part, as in
Python). -/
def splitCommaAux : List Char → List Char → List String
  | cur, [] => [⟨cur.reverse⟩]
  | cur, c :: rest =>
    if c = ',' then ⟨cur.reverse⟩ :: splitCommaAux [] rest
    else splitCommaAux (c :: cur) rest

/-- Python str.split(comma). -/
def pySplitComma (s : String) : List String := splitCommaAux [] s.data

/-- split_keywords from app.py lines 111-115: split on commas, clean
each part, drop empties. -/
def split_keywords (s : String) : List String :=
  ((pySplitComma s).map clean_kw).filter (· ≠ "")

/-- The head of a char list does not satisfy p (true for the empty
list). -/
def hdNo (p : Char → Bool) : List Char → Bool
  | [] => true
  | c :: _ => !p c

/-- The last element of a char list does not satisfy p (true for the
empty list). -/
def lastNo (p : Char → Bool) : List Char → Bool
  | [] => true
  | [c] => !p c
  | _ :: d :: ds => lastNo p (d :: ds)

/-- No two adjacent characters are both whitespace. -/
def noAdjWs : List Char → Bool
  | [] => true
  | [_] => true
  | a :: b :: r => !(pyWs a && pyWs b) && noAdjWs (b :: r)

/-- Every whitespace character in the list is a plain space. -/
def wsSpace (l : List Char) : Bool := l.all (fun c => !pyWs c || c = ' ')

/-- Normal form for clean_kw output: no leading or trailing
whitespace, no two adjacent whitespace characters, and every
whitespace character is a plain space. -/
def normWs (l : List Char) : Bool :=
  hdNo pyWs l && lastNo pyWs l && noAdjWs l && wsSpace l

lemma hdNo_dropWhile (p : Char → Bool) (l : List Char) :
    hdNo p (l.dropWhile p) = true := by
  induction l with
  | nil => rfl
  | cons c rest ih =>
    rw [List.dropWhile_cons]
    by_cases hc : p c = true
    · simpa [hc] using ih
    · simp [hc, hdNo]

lemma dropWhile_eq_self_of_hdNo (p : Char → Bool) (l : List Char)
    (h : hdNo p l = true) : l.dropWhile p = l := by
  cases l with
  | nil => rfl
  | cons c rest =>
    simp only [hdNo, Bool.not_eq_true'] at h
    simp [List.dropWhile_cons, h]

lemma hdNo_rstripP (p : Char → Bool) (l : List Char)
    (h : hdNo p l = true) : hdNo p (rstripP p l) = true := by
  cases l with
  | nil => rfl
  | cons c rest =>
    simp only [hdNo, Bool.not_eq_true'] at h
    rw [rstripP]
    cases rstripP p rest with
    | nil => simp [h, hdNo]
    | cons d ds => simp [h, hdNo]

lemma lastNo_rstripP (p : Char → Bool) (l : List Char) :
    lastNo p (rstripP p l) = true := by
  induction l with
  | nil => rfl
  | cons c rest ih =>
    rw [rstripP]
    cases h : rstripP p rest with
    | nil =>
      by_cases hc : p c = true
      · simp [hc, lastNo]
      · simp [hc, lastNo]
    | cons d ds =>
      rw [h] at ih
      simpa [lastNo] using ih

lemma rstripP_eq_self_of_lastNo (p : Char → Bool) (l : List Char)
    (h : lastNo p l = true) : rstripP p l = l := by
  induction l with
  | nil => rfl
  | cons c rest ih =>
    cases rest with
    | nil =>
      simp only [lastNo, Bool.not_eq_true'] at h
      simp [rstripP, h]
    | cons r rs =>
      simp only [lastNo] at h
      rw [rstripP, ih h]

lemma lastNo_dropWhile (p : Char → Bool) (l : List Char)
    (h : lastNo p l = true) : lastNo p (l.dropWhile p) = true := by
  induction l with
  | nil => rfl
  | cons c rest ih =>
    rw [List.dropWhile_cons]
    by_cases hc : p c = true
    · cases rest with
      | nil => simp only [lastNo, Bool.not_eq_true'] at h; simp [hc] at h
      | cons r rs =>
        simp only [lastNo] at h
        simpa [hc] using ih h
    · simpa [hc] using h

lemma hdNo_stripBy (p : Char → Bool) (l : List Char) :
    hdNo p (stripBy p l) = true :=
  hdNo_rstripP p _ (hdNo_dropWhile p l)

lemma lastNo_stripBy (p : Char → Bool) (l : List Char) :
    lastNo p (stripBy p l) = true :=
  lastNo_rstripP p _

lemma stripBy_eq_self (p : Char → Bool) (l : List Char)
    (h1 : hdNo p l = true) (h2 : lastNo p l = true) : stripBy p l = l := by
  unfold stripBy
  rw [dropWhile_eq_self_of_hdNo p l h1, rstripP_eq_self_of_lastNo p l h2]

lemma wsSpace_collapseAux (l : List Char) : ∀ b, wsSpace (collapseAux b l) = true := by
  induction l with
  | nil => intro b; rfl
  | cons c rest ih =>
    intro b
    rw [collapseAux]
    by_cases hc : pyWs c = true
    · cases b with
      | true => simpa [hc] using ih true
      | false => simpa [hc, wsSpace] using ih true
    · have := ih false
      simp only [wsSpace, List.all_cons] at this ⊢
      simp [hc, this]

lemma noAdjWs_collapseAux (l : List Char) :
    hdNo pyWs (collapseAux true l) = true ∧
    noAdjWs (collapseAux false l) = true ∧
    noAdjWs (collapseAux true l) = true := by
  induction l with
  | nil => exact ⟨rfl, rfl, rfl⟩
  | cons c rest ih =>
    obtain ⟨ih1, ih2, ih3⟩ := ih
    by_cases hc : pyWs c = true
    · refine ⟨?_, ?_, ?_⟩
      · simpa [collapseAux, hc] using ih1
      · rw [collapseAux]
        simp only [hc, if_true]
        cases h : collapseAux true rest with
        | nil => rfl
        | cons d ds =>
          rw [h] at ih1 ih3
          simp only [hdNo, Bool.not_eq_true'] at ih1
          simpa [noAdjWs, ih1] using ih3
      · simpa [collapseAux, hc] using ih3
    · refine ⟨?_, ?_, ?_⟩
      · simp [collapseAux, hc, hdNo]
      · rw [collapseAux]
        simp only [hc, if_neg, Bool.false_eq_true, not_false_iff]
        cases h : collapseAux false rest with
        | nil => rfl
        | cons d ds =>
          rw [h] at ih2
          simpa [noAdjWs, hc] using ih2
      · rw [collapseAux]
        simp only [hc, if_neg, Bool.false_eq_true, not_false_iff]
        cases h : collapseAux false rest with
        | nil => rfl
        | cons d ds =>
          rw [h] at ih2
          simpa [noAdjWs, hc] using ih2

lemma hdNo_collapseAux_false (l : List Char) (h : hdNo pyWs l = true) :
    hdNo pyWs (collapseAux false l) = true := by
  cases l with
  | nil => rfl
  | cons c rest =>
    simp only [hdNo, Bool.not_eq_true'] at h
    simp [collapseAux, h, hdNo]

lemma collapseAux_eq_nil (l : List Char) :
    ∀ b, collapseAux b l = [] → l.all pyWs = true := by
  induction l with
  | nil => intro b _; rfl
  | cons c rest ih =>
    intro b h
    rw [collapseAux] at h
    by_cases hc : pyWs c = true
    · cases b with
      | true =>
        simp only [hc, if_true] at h
        simp [hc, ih true h]
      | false => simp [hc] at h
    · simp [hc] at h

lemma allWs_lastNo_nil (l : List Char) (h1 : l.all pyWs = true)
    (h2 : lastNo pyWs l = true) : l = [] := by
  induction l with
  | nil => rfl
  | cons c rest ih =>
    simp only [List.all_cons, Bool.and_eq_true] at h1
    cases rest with
    | nil =>
      simp only [lastNo, Bool.not_eq_true'] at h2
      rw [h1.1] at h2
      cases h2
    | cons r rs =>
      simp only [lastNo] at h2
      cases ih h1.2 h2

lemma lastNo_collapseAux (l : List Char) :
    ∀ b, lastNo pyWs l = true → lastNo pyWs (collapseAux b l) = true := by
  induction l with
  | nil => intro b _; rfl
  | cons c rest ih =>
    intro b h
    by_cases hc : pyWs c = true
    · cases rest with
      | nil => simp [lastNo, hc] at h
      | cons r rs =>
        simp only [lastNo] at h
        cases b with
        | true => simpa [collapseAux, hc] using ih true h
        | false =>
          rw [collapseAux]
          simp only [hc, if_true]
          cases hX : collapseAux true (r :: rs) with
          | nil =>
            have := allWs_lastNo_nil _ (collapseAux_eq_nil _ true hX) h
            cases this
          | cons d ds =>
            have := ih true h
            rw [hX] at this
            simpa [lastNo] using this
    · cases rest with
      | nil => simp [collapseAux, hc, lastNo]
      | cons r rs =>
        simp only [lastNo] at h
        rw [collapseAux]
        simp only [hc, if_neg, Bool.false_eq_true, not_false_iff]
        cases hX : collapseAux false (r :: rs) with
        | nil => simp [hc, lastNo]
        | cons d ds =>
          have := ih false h
          rw [hX] at this
          simpa [lastNo] using this

lemma collapseAux_eq_self (l : List Char) (h1 : wsSpace l = true)
    (h2 : noAdjWs l = true) :
    collapseAux false l = l ∧ (hdNo pyWs l = true → collapseAux true l = l) := by
  induction l with
  | nil => exact ⟨rfl, fun _ => rfl⟩
  | cons c rest ih =>
    simp only [wsSpace, List.all_cons, Bool.and_eq_true] at h1
    have hr : noAdjWs rest = true := by
      cases rest with
      | nil => rfl
      | cons r rs =>
        simp only [noAdjWs, Bool.and_eq_true] at h2
        exact h2.2
    obtain ⟨ihf, iht⟩ := ih h1.2 hr
    by_cases hc : pyWs c = true
    · have hsp : c = ' ' := by
        rcases Bool.or_eq_true_iff.mp h1.1 with h | h
        · rw [hc] at h; cases h
        · exact decide_eq_true_eq.mp h
      have hdr : hdNo pyWs rest = true := by
        cases rest with
        | nil => rfl
        | cons r rs =>
          simp only [noAdjWs, Bool.and_eq_true, Bool.not_eq_true',
            Bool.and_eq_false_iff] at h2
          rcases h2.1 with h | h
          · rw [hc] at h; cases h
          · simp [hdNo, h]
      constructor
      · rw [collapseAux]
        simp only [hc, if_true]
        rw [iht hdr, hsp]
        simp
      · intro hh
        simp [hdNo, hc] at hh
    · constructor
      · rw [collapseAux]
        simp [hc, ihf]
      · intro _
        rw [collapseAux]
        simp [hc, ihf]

lemma normWs_clean (l : List Char) : normWs (pyCollapse (pyStrip l)) = true := by
  have hh : hdNo pyWs (pyStrip l) = true := hdNo_stripBy pyWs l
  have hl : lastNo pyWs (pyStrip l) = true := lastNo_stripBy pyWs l
  have h1 := hdNo_collapseAux_false _ hh
  have h2 := lastNo_collapseAux (pyStrip l) false hl
  have h3 := (noAdjWs_collapseAux (pyStrip l)).2.1
  have h4 := wsSpace_collapseAux (pyStrip l) false
  unfold pyCollapse
  simp [normWs, h1, h2, h3, h4]

lemma clean_fix (l : List Char) (h : normWs l = true) :
    pyCollapse (pyStrip l) = l := by
  simp only [normWs, Bool.and_eq_true] at h
  obtain ⟨⟨⟨h1, h2⟩, h3⟩, h4⟩ := h
  unfold pyStrip
  rw [stripBy_eq_self pyWs l h1 h2]
  exact (collapseAux_eq_self l h4 h3).1

/-- C6: clean_kw is idempotent; its output has no leading or trailing
whitespace, every whitespace character in it is a single space with no
two adjacent whitespace characters (internal runs collapsed), and
empty or missing (None) input yields the empty string.  Totality is by
construction: clean_kw is a total Lean function. -/
theorem clean_kw_contract :
    (∀ s : String, clean_kw (clean_kw s) = clean_kw s) ∧
    (∀ s : String, normWs (clean_kw s).data = true) ∧
    cleanKwOpt none = "" ∧ clean_kw "" = "" := by
  refine ⟨fun s => ?_, fun s => ?_, rfl, rfl⟩
  · show (⟨pyCollapse (pyStrip (pyCollapse (pyStrip s.data)))⟩ : String) =
      (⟨pyCollapse (pyStrip s.data)⟩ : String)
    rw [clean_fix _ (normWs_clean s.data)]
  · exact normWs_clean s.data

/-- First-match association-list lookup, modelling Python dict
indexing (dicts bind each key once). -/
def lookupO {α : Type} : List (String × α) → String → Option α
  | [], _ => none
  | (k', v) :: rest, k => if k' = k then some v else lookupO rest k

/-- Python dict.get with a default. -/
def lookupD {α : Type} (l : List (String × α)) (k : String) (dflt : α) : α :=
  (lookupO l k).getD dflt

/-- SEASONAL_PACKS from app.py lines 98-104. -/
def SEASONAL_PACKS : List (String × List String) :=
  [("None", []),
   ("Spring", ["spring", "easter", "mother's day"]),
   ("Summer", ["summer", "beach", "vacation"]),
   ("Autumn", ["fall", "autumn", "halloween", "thanksgiving"]),
   ("Winter", ["winter", "christmas", "new year"])]

/-- SEASONAL_PACKS.get(season, []) as used throughout app.py. -/
def seasonalFor (season : String) : List String :=
  lookupD SEASONAL_PACKS season []

/-- The season-derived keyword slot: first entry of the selected
seasonal pack, empty when the pack is empty or the season is unknown
(app.py lines 131-132). -/
def seasonSlot (season : String) : String := (seasonalFor season).headD ""

/-- Scanner for re.sub of pattern pipe-whitespace-pipe replaced by a
single pipe, with Python's left-to-right non-overlapping semantics:
the state records, after an emitted pipe that may start a match, the
whitespace characters (reversed) read since that pipe.  After a match
the scan resumes in the initial state, so the replacement text never
participates in a further match, exactly as in re.sub. -/
def sppAux : Option (List Char) → List Char → List Char
  | none, [] => []
  | some pend, [] => pend.reverse
  | none, c :: rest =>
    if c = '|' then '|' :: sppAux (some []) rest
    else c :: sppAux none rest
  | some pend, c :: rest =>
    if c = '|' then sppAux none rest
    else if pyWs c then sppAux (some (c :: pend)) rest
    else pend.reverse ++ c :: sppAux none rest

/-- re.sub collapsing a doubled pipe (pipe, optional whitespace,
pipe) to a single pipe. -/
def subPipePipe (l : List Char) : List Char := sppAux none l

/-- Scanner for re.sub of one-or-more whitespace followed by a pipe,
replaced by space-pipe.  The state is the (reversed) pending
whitespace run that could still begin a match. -/
def swpAux : List Char → List Char → List Char
  | pend, [] => pend.reverse
  | pend, c :: rest =>
    if pyWs c then swpAux (c :: pend) rest
    else if c = '|' then
      if pend.isEmpty then '|' :: swpAux [] rest
      else ' ' :: '|' :: swpAux [] rest
    else pend.reverse ++ c :: swpAux [] rest

/-- re.sub normalizing whitespace before a pipe to a single space. -/
def subWsPipe (l : List Char) : List Char := swpAux [] l

/-- Scanner for re.sub of a pipe followed by one-or-more whitespace,
replaced by pipe-space.  State 0: scanning; state 1: a pipe was just
emitted; state 2: inside the whitespace run of a match whose
replacement space was already emitted. -/
def spwAux : Nat → List Char → List Char
  | _, [] => []
  | st, c :: rest =>
    if st = 2 then
      if pyWs c then spwAux 2 rest
      else if c = '|' then '|' :: spwAux 1 rest
      else c :: spwAux 0 rest
    else if st = 1 then
      if pyWs c then ' ' :: spwAux 2 rest
      else if c = '|' then '|' :: spwAux 1 rest
      else c :: spwAux 0 rest
    else
      if c = '|' then '|' :: spwAux 1 rest else c :: spwAux 0 rest

/-- re.sub normalizing whitespace after a pipe to a single space. -/
def subPipeWs (l : List Char) : List Char := spwAux 0 l

/-- The character set of the final strip in title cleanup: space,
dash, pipe (app.py line 168). -/
def isSep (c : Char) : Bool := c = ' ' || c = '-' || c = '|'

/-- The named placeholders of the 8 title templates. -/
inductive Slot
  | kw1 | kw2 | kw3 | product | material | style | audience
  | occasion | personalization | color | season
deriving DecidableEq

/-- The values substituted for the placeholders (app.py lines
151-162). -/
structure Slots where
  kw1 : String
  kw2 : String
  kw3 : String
  product : String
  material : String
  style : String
  audience : String
  occasion : String
  personalization : String
  color : String
  season : String

/-- Value substituted for a placeholder. -/
def slotVal (sl : Slots) : Slot → String
  | .kw1 => sl.kw1
  | .kw2 => sl.kw2
  | .kw3 => sl.kw3
  | .product => sl.product
  | .material => sl.material
  | .style => sl.style
  | .audience => sl.audience
  | .occasion => sl.occasion
  | .personalization => sl.personalization
  | .color => sl.color
  | .season => sl.season

/-- One piece of a template: a literal or a placeholder. -/
inductive TPart
  | lit (s : String)
  | slot (x : Slot)
deriving DecidableEq

/-- str.format: concatenate literals and substituted placeholder
values. -/
def renderL (sl : Slots) : List TPart → List Char
  | [] => []
  | .lit s :: r => s.data ++ renderL sl r
  | .slot x :: r => (slotVal sl x).data ++ renderL sl r

/-- The 8 title templates of app.py lines 135-144, split at their
placeholders. -/
def templates : List (List TPart) :=
  [ [.slot .kw1, .lit " ", .slot .product, .lit " - ", .slot .material,
     .lit " ", .slot .style, .lit " | ", .slot .audience, .lit " ",
     .slot .occasion],
    [.slot .product, .lit " ", .slot .kw1, .lit " ", .slot .kw2,
     .lit " | ", .slot .personalization, .lit " ", .slot .audience,
     .lit " Gift"],
    [.slot .kw1, .lit " ", .slot .kw2, .lit " ", .slot .product,
     .lit " | ", .slot .color, .lit " ", .slot .style,
     .lit " - Perfect ", .slot .occasion],
    [.slot .season, .lit " ", .slot .kw1, .lit " ", .slot .product,
     .lit " | Unique ", .slot .audience, .lit " Gift - ",
     .slot .material],
    [.slot .product, .lit " | ", .slot .kw1, .lit " ", .slot .style,
     .lit " ", .slot .material, .lit " - ", .slot .occasion,
     .lit " Gift Idea"],
    [.slot .kw1, .lit " ", .slot .product, .lit " | ",
     .slot .personalization, .lit " - ", .slot .audience, .lit " ",
     .slot .occasion, .lit " Gift"],
    [.slot .kw1, .lit " ", .slot .kw2, .lit " ", .slot .product,
     .lit " | Handmade ", .slot .style, .lit " - ", .slot .audience],
    [.slot .product, .lit " ", .slot .kw1, .lit " | Premium ",
     .slot .material, .lit " - ", .slot .color, .lit " ",
     .slot .occasion] ]

/-- The fill closure of app.py lines 151-169: substitute, collapse
whitespace and strip, collapse doubled pipes, normalize spacing
around pipes, strip stray separators. -/
def fill (sl : Slots) (t : List TPart) : String :=
  ⟨stripBy isSep (subPipeWs (subWsPipe (subPipePipe (pyStrip (pyCollapse (renderL sl t))))))⟩

/-- The slot values computed by title_variations (app.py lines
119-132 and 147-149): cleaned fields, the first three non-empty
keywords, and the first seasonal keyword. -/
def tvSlots (product : String) (main_kws : List String)
    (material style audience occasion personalization color season : String) : Slots :=
  let kws := main_kws.filter (· ≠ "")
  let top := kws.take 3
  ⟨top.getD 0 "", top.getD 1 "", top.getD 2 "",
   clean_kw product, clean_kw material, clean_kw style, clean_kw audience,
   clean_kw occasion, clean_kw personalization, clean_kw color,
   seasonSlot season⟩

/-- The candidate-accumulation loop of app.py lines 171-175 (and the
analogous loops of the tag generators): keep a transformed candidate
when it is non-empty and not already present. -/
def dedupAppend : List String → List String → List String
  | acc, [] => acc
  | acc, x :: rest =>
    if x ≠ "" ∧ x ∉ acc then dedupAppend (acc ++ [x]) rest
    else dedupAppend acc rest

/-- title_variations from app.py lines 117-178. -/
def title_variations (product : String) (main_kws : List String)
    (material style audience occasion personalization color season : String) : List String :=
  (dedupAppend []
    (templates.map
      (fill (tvSlots product main_kws material style audience occasion
        personalization color season)))).take 8

/-- Does pat occur at the very front of l? -/
def matchAt : List Char → List Char → Bool
  | [], _ => true
  | _ :: _, [] => false
  | a :: as, b :: bs => a = b && matchAt as bs

/-- Does pat occur as a contiguous substring of l (Python's in
operator on strings)? -/
def containsSub (pat : List Char) : List Char → Bool
  | [] => matchAt pat []
  | c :: rest => matchAt pat (c :: rest) || containsSub pat rest

/-- Python's in operator on strings. -/
def strContains (s sub : String) : Bool := containsSub sub.data s.data

lemma dedupAppend_nodup : ∀ (l acc : List String), acc.Nodup →
    (dedupAppend acc l).Nodup := by
  intro l
  induction l with
  | nil => intro acc h; exact h
  | cons x rest ih =>
    intro acc h
    rw [dedupAppend]
    by_cases hc : x ≠ "" ∧ x ∉ acc
    · rw [if_pos hc]
      refine ih _ ?_
      simp [List.nodup_append, h, hc.2]
    · rw [if_neg hc]
      exact ih _ h

lemma dedupAppend_sub : ∀ (l acc : List String) (y : String),
    y ∈ dedupAppend acc l → y ∈ acc ∨ y ∈ l := by
  intro l
  induction l with
  | nil => intro acc y h; exact Or.inl h
  | cons x rest ih =>
    intro acc y h
    rw [dedupAppend] at h
    by_cases hc : x ≠ "" ∧ x ∉ acc
    · rw [if_pos hc] at h
      rcases ih _ _ h with h' | h'
      · rcases List.mem_append.mp h' with h'' | h''
        · exact Or.inl h''
        · simp only [List.mem_singleton] at h''
          exact Or.inr (h'' ▸ List.mem_cons_self x rest)
      · exact Or.inr (List.mem_cons_of_mem x h')
    · rw [if_neg hc] at h
      rcases ih _ _ h with h' | h'
      · exact Or.inl h'
      · exact Or.inr (List.mem_cons_of_mem x h')

lemma dedupAppend_ne : ∀ (l acc : List String), (∀ a ∈ acc, a ≠ "") →
    ∀ y ∈ dedupAppend acc l, y ≠ "" := by
  intro l
  induction l with
  | nil => intro acc h; exact h
  | cons x rest ih =>
    intro acc h
    rw [dedupAppend]
    by_cases hc : x ≠ "" ∧ x ∉ acc
    · rw [if_pos hc]
      refine ih _ ?_
      intro a ha
      rcases List.mem_append.mp ha with h' | h'
      · exact h a h'
      · simp only [List.mem_singleton] at h'
        exact h' ▸ hc.1
    · rw [if_neg hc]
      exact ih _ h

lemma title_variations_mem (product : String) (main_kws : List String)
    (material style audience occasion personalization color season : String)
    (t : String)
    (h : t ∈ title_variations product main_kws material style audience
      occasion personalization color season) :
    ∃ tp ∈ templates,
      t = fill (tvSlots product main_kws material style audience occasion
        personalization color season) tp := by
  unfold title_variations at h
  have h1 := (List.take_sublist 8 _).subset h
  rcases dedupAppend_sub _ _ _ h1 with h2 | h2
  · cases h2
  · rcases List.mem_map.mp h2 with ⟨tp, htp, hfill⟩
    exact ⟨tp, htp, hfill.symm⟩

/-- C5: title_variations returns at most 8 titles, with no duplicate
strings (exact match), and every returned title is non-empty. -/
theorem title_bounds (product : String) (main_kws : List String)
    (material style audience occasion personalization color season : String) :
    (title_variations product main_kws material style audience occasion
       personalization color season).length ≤ 8 ∧
    (title_variations product main_kws material style audience occasion
       personalization color season).Nodup ∧
    ∀ t ∈ title_variations product main_kws material style audience occasion
       personalization color season, t ≠ "" := by
  refine ⟨?_, ?_, ?_⟩
  · unfold title_variations
    rw [List.length_take]
    exact min_le_left _ _
  · exact (List.take_sublist 8 _).nodup (dedupAppend_nodup _ [] List.nodup_nil)
  · intro t ht
    unfold title_variations at ht
    exact dedupAppend_ne _ [] (by intro a ha; cases ha) t
      ((List.take_sublist 8 _).subset ht)

/-- C2 counterexample: in the scenario product Necklace, keywords
dainty and gift for her, season Winter, the season-derived slot is
the string winter, not christmas (the first entry of the Winter pack
is winter), and no produced title contains christmas. -/
theorem title_season_counterexample :
    seasonSlot "Winter" ≠ "christmas" ∧
    (title_variations "Necklace" (split_keywords "dainty, gift for her")
       "" "" "" "" "" "" "Winter").all (fun t => !strContains t "christmas") = true := by
  constructor
  · decide
  · rfl

/-- C2 amended: in the same scenario the season-derived slot resolves
to winter, the first entry of the Winter pack, and at least one
produced title contains the substring winter. -/
theorem title_season_amended :
    seasonSlot "Winter" = "winter" ∧
    seasonalFor "Winter" = ["winter", "christmas", "new year"] ∧
    (title_variations "Necklace" (split_keywords "dainty, gift for her")
       "" "" "" "" "" "" "Winter").any (fun t => strContains t "winter") = true := by
  refine ⟨rfl, rfl, ?_⟩
  rfl

/-- C3 counterexample: with every field empty and season None,
title_variations does not return the empty list. -/
theorem title_empty_counterexample :
    title_variations "" [] "" "" "" "" "" "" "None" ≠ [] := by
  decide

/-- C3 amended: with every field empty and season None, the titles
whose templates consist only of placeholders and separators collapse
and are discarded, but the six templates containing literal words
survive cleanup, so title_variations returns exactly this six-element
list. -/
theorem title_empty_amended :
    title_variations "" [] "" "" "" "" "" "" "None" =
      ["Gift", "Perfect", "Unique Gift", "Gift Idea", "Handmade", "Premium"] := by
  rfl

lemma count_cons_pipe (c : Char) (l : List Char) :
    (c :: l).count '|' = l.count '|' + if c = '|' then 1 else 0 := by
  rw [List.count_cons]
  simp [beq_iff_eq]

lemma count_collapseAux (l : List Char) :
    ∀ b, (collapseAux b l).count '|' ≤ l.count '|' := by
  induction l with
  | nil => intro b; simp [collapseAux]
  | cons c rest ih =>
    intro b
    rw [collapseAux, count_cons_pipe]
    by_cases hc : pyWs c = true
    · have hne : ¬ c = '|' := by
        intro h; rw [h] at hc; exact absurd hc (by decide)
      cases b with
      | true =>
        simp only [hc, if_true]
        exact le_trans (ih true) (by omega)
      | false =>
        simp only [hc, if_true, Bool.false_eq_true, if_false, count_cons_pipe]
        have := ih true
        simp only [if_neg (by decide : ¬ (' ' = '|'))]
        omega
    · simp only [hc, Bool.false_eq_true, if_false, count_cons_pipe]
      have := ih false
      omega

lemma count_rstripP_le (p : Char → Bool) (l : List Char) :
    (rstripP p l).count '|' ≤ l.count '|' := by
  induction l with
  | nil => simp [rstripP]
  | cons c rest ih =>
    rw [rstripP]
    cases h : rstripP p rest with
    | nil =>
      by_cases hc : p c = true
      · simp [hc, count_cons_pipe]
      · simp only [hc, Bool.false_eq_true, if_false]
        rw [count_cons_pipe c [], count_cons_pipe c rest]
        simp
    | cons d ds =>
      rw [h] at ih
      rw [count_cons_pipe c (d :: ds), count_cons_pipe c rest]
      omega

lemma count_stripBy_le (p : Char → Bool) (l : List Char) :
    (stripBy p l).count '|' ≤ l.count '|' :=
  le_trans (count_rstripP_le p _) ((List.dropWhile_sublist _).count_le _)

lemma count_sppAux (l : List Char) :
    ∀ st : Option (List Char),
      (sppAux st l).count '|' ≤ (st.getD []).count '|' + l.count '|' := by
  induction l with
  | nil =>
    intro st
    cases st with
    | none => simp [sppAux]
    | some pend => simp [sppAux, List.count_reverse]
  | cons c rest ih =>
    intro st
    cases st with
    | none =>
      rw [sppAux]
      by_cases hc : c = '|'
      · subst hc
        rw [if_pos rfl, count_cons_pipe '|' (sppAux (some []) rest),
          count_cons_pipe '|' rest, if_pos rfl]
        have := ih (some [])
        simp only [Option.getD_some, Option.getD_none, List.count_nil] at this ⊢
        omega
      · rw [if_neg hc, count_cons_pipe c (sppAux none rest),
          count_cons_pipe c rest, if_neg hc]
        have := ih none
        simp only [Option.getD_none, List.count_nil] at this ⊢
        omega
    | some pend =>
      rw [sppAux]
      by_cases hc : c = '|'
      · subst hc
        rw [if_pos rfl, count_cons_pipe '|' rest, if_pos rfl]
        have := ih none
        simp only [Option.getD_none, Option.getD_some, List.count_nil]
          at this ⊢
        omega
      · by_cases hw : pyWs c = true
        · rw [if_neg hc, if_pos hw]
          have := ih (some (c :: pend))
          simp only [Option.getD_some, Option.getD_none] at this ⊢
          rw [count_cons_pipe c pend, if_neg hc] at this
          rw [count_cons_pipe c rest, if_neg hc]
          omega
        · rw [if_neg hc, if_neg hw, List.count_append, List.count_reverse,
            count_cons_pipe c (sppAux none rest), if_neg hc,
            count_cons_pipe c rest, if_neg hc]
          have := ih none
          simp only [Option.getD_none, Option.getD_some, List.count_nil]
            at this ⊢
          omega

lemma count_swpAux (l : List Char) :
    ∀ pend : List Char,
      (swpAux pend l).count '|' ≤ pend.count '|' + l.count '|' := by
  induction l with
  | nil => intro pend; simp [swpAux, List.count_reverse]
  | cons c rest ih =>
    intro pend
    rw [swpAux]
    by_cases hw : pyWs c = true
    · have hne : ¬ c = '|' := by
        intro h; rw [h] at hw; exact absurd hw (by decide)
      rw [if_pos hw]
      have := ih (c :: pend)
      rw [count_cons_pipe c pend, if_neg hne] at this
      rw [count_cons_pipe c rest, if_neg hne]
      omega
    · by_cases hc : c = '|'
      · subst hc
        rw [if_neg hw, if_pos rfl]
        have := ih []
        simp only [List.count_nil] at this
        by_cases hp : pend.isEmpty = true
        · rw [if_pos hp, count_cons_pipe '|' (swpAux [] rest), if_pos rfl,
            count_cons_pipe '|' rest, if_pos rfl]
          omega
        · rw [if_neg hp, count_cons_pipe ' ' ('|' :: swpAux [] rest),
            if_neg (by decide : ¬ ((' ' : Char) = '|')),
            count_cons_pipe '|' (swpAux [] rest), if_pos rfl,
            count_cons_pipe '|' rest, if_pos rfl]
          omega
      · rw [if_neg hw, if_neg hc, List.count_append, List.count_reverse,
          count_cons_pipe c (swpAux [] rest), if_neg hc,
          count_cons_pipe c rest, if_neg hc]
        have := ih []
        simp only [List.count_nil] at this
        omega

lemma count_spwAux (l : List Char) :
    ∀ st : Nat, (spwAux st l).count '|' ≤ l.count '|' := by
  induction l with
  | nil => intro st; simp [spwAux]
  | cons c rest ih =>
    intro st
    rw [spwAux]
    by_cases hw : pyWs c = true
    · have hne : ¬ c = '|' := by
        intro h; rw [h] at hw; exact absurd hw (by decide)
      by_cases h2 : st = 2
      · rw [if_pos h2, if_pos hw]
        have := ih 2
        rw [count_cons_pipe c rest, if_neg hne]
        omega
      · by_cases h1 : st = 1
        · rw [if_neg h2, if_pos h1, if_pos hw,
            count_cons_pipe ' ' (spwAux 2 rest),
            if_neg (by decide : ¬ ((' ' : Char) = '|')),
            count_cons_pipe c rest, if_neg hne]
          have := ih 2
          omega
        · rw [if_neg h2, if_neg h1, if_neg hne,
            count_cons_pipe c (spwAux 0 rest), if_neg hne,
            count_cons_pipe c rest, if_neg hne]
          have := ih 0
          omega
    · by_cases hc : c = '|'
      · subst hc
        have hgoal : ('|' :: spwAux 1 rest).count '|' ≤ ('|' :: rest).count '|' := by
          rw [count_cons_pipe '|' (spwAux 1 rest), if_pos rfl,
            count_cons_pipe '|' rest, if_pos rfl]
          have := ih 1
          omega
        by_cases h2 : st = 2
        · rw [if_pos h2, if_neg hw, if_pos rfl]
          exact hgoal
        · by_cases h1 : st = 1
          · rw [if_neg h2, if_pos h1, if_neg hw, if_pos rfl]
            exact hgoal
          · rw [if_neg h2, if_neg h1, if_pos rfl]
            exact hgoal
      · have hgoal : (c :: spwAux 0 rest).count '|' ≤ (c :: rest).count '|' := by
          rw [count_cons_pipe c (spwAux 0 rest), if_neg hc,
            count_cons_pipe c rest, if_neg hc]
          have := ih 0
          omega
        by_cases h2 : st = 2
        · rw [if_pos h2, if_neg hw, if_neg hc]
          exact hgoal
        · by_cases h1 : st = 1
          · rw [if_neg h2, if_pos h1, if_neg hw, if_neg hc]
            exact hgoal
          · rw [if_neg h2, if_neg h1, if_neg hc]
            exact hgoal

/-- Number of pipe characters contributed by the literal pieces of a
template. -/
def litPipes : List TPart → Nat
  | [] => 0
  | .lit s :: r => s.data.count '|' + litPipes r
  | .slot _ :: r => litPipes r

lemma count_renderL (sl : Slots)
    (h : ∀ x : Slot, (slotVal sl x).data.count '|' = 0) :
    ∀ t : List TPart, (renderL sl t).count '|' = litPipes t := by
  intro t
  induction t with
  | nil => simp [renderL, litPipes]
  | cons part r ih =>
    cases part with
    | lit s =>
      rw [renderL, litPipes, List.count_append, ih]
    | slot x =>
      rw [renderL, litPipes, List.count_append, ih, h x]
      omega

lemma litPipes_templates : ∀ t ∈ templates, litPipes t = 1 := by decide

lemma count_clean_kw_le (s : String) :
    (clean_kw s).data.count '|' ≤ s.data.count '|' := by
  show (pyCollapse (pyStrip s.data)).count '|' ≤ s.data.count '|'
  exact le_trans (count_collapseAux _ false) (count_stripBy_le pyWs s.data)

lemma seasonSlot_noPipe (season : String) :
    (seasonSlot season).data.count '|' = 0 := by
  unfold seasonSlot seasonalFor lookupD SEASONAL_PACKS
  simp only [lookupO]
  repeat' split
  all_goals rfl

lemma getD_mem_or (l : List String) (i : Nat) :
    l.getD i "" ∈ l ∨ l.getD i "" = "" := by
  induction l generalizing i with
  | nil => right; simp [List.getD]
  | cons x xs ih =>
    cases i with
    | zero => left; simp
    | succ j =>
      rcases ih j with h | h
      · left; simp only [List.getD_cons_succ]; exact List.mem_cons_of_mem x h
      · right; simpa using h

lemma tvSlots_noPipe (product : String) (main_kws : List String)
    (material style audience occasion personalization color season : String)
    (h : product.data.count '|' = 0 ∧ material.data.count '|' = 0 ∧
      style.data.count '|' = 0 ∧ audience.data.count '|' = 0 ∧
      occasion.data.count '|' = 0 ∧ personalization.data.count '|' = 0 ∧
      color.data.count '|' = 0 ∧ ∀ k ∈ main_kws, k.data.count '|' = 0) :
    ∀ x : Slot,
      (slotVal (tvSlots product main_kws material style audience occasion
        personalization color season) x).data.count '|' = 0 := by
  obtain ⟨hp, hm, hs, ha, ho, hpe, hc, hk⟩ := h
  have hkw : ∀ i : Nat,
      (((main_kws.filter (· ≠ "")).take 3).getD i "").data.count '|' = 0 := by
    intro i
    rcases getD_mem_or ((main_kws.filter (· ≠ "")).take 3) i with hmem | hnil
    · have : ((main_kws.filter (· ≠ "")).take 3) ⊆ main_kws :=
        fun a hha =>
          List.mem_of_mem_filter ((List.take_sublist 3 _).subset hha)
      exact hk _ (this hmem)
    · rw [hnil]; rfl
  intro x
  cases x with
  | kw1 => exact hkw 0
  | kw2 => exact hkw 1
  | kw3 => exact hkw 2
  | product => exact Nat.le_zero.mp (hp ▸ count_clean_kw_le product)
  | material => exact Nat.le_zero.mp (hm ▸ count_clean_kw_le material)
  | style => exact Nat.le_zero.mp (hs ▸ count_clean_kw_le style)
  | audience => exact Nat.le_zero.mp (ha ▸ count_clean_kw_le audience)
  | occasion => exact Nat.le_zero.mp (ho ▸ count_clean_kw_le occasion)
  | personalization =>
    exact Nat.le_zero.mp (hpe ▸ count_clean_kw_le personalization)
  | color => exact Nat.le_zero.mp (hc ▸ count_clean_kw_le color)
  | season => exact seasonSlot_noPipe season

lemma fill_count_le (sl : Slots)
    (hsl : ∀ x : Slot, (slotVal sl x).data.count '|' = 0)
    (t : List TPart) (ht : t ∈ templates) :
    (fill sl t).data.count '|' ≤ 1 := by
  show (stripBy isSep (subPipeWs (subWsPipe (subPipePipe
    (pyStrip (pyCollapse (renderL sl t))))))).count '|' ≤ 1
  have h0 : (renderL sl t).count '|' = 1 := by
    rw [count_renderL sl hsl t, litPipes_templates t ht]
  calc (stripBy isSep (subPipeWs (subWsPipe (subPipePipe
        (pyStrip (pyCollapse (renderL sl t))))))).count '|'
      ≤ (subPipeWs (subWsPipe (subPipePipe
          (pyStrip (pyCollapse (renderL sl t)))))).count '|' :=
        count_stripBy_le isSep _
    _ ≤ (subWsPipe (subPipePipe
          (pyStrip (pyCollapse (renderL sl t))))).count '|' :=
        count_spwAux _ 0
    _ ≤ (subPipePipe (pyStrip (pyCollapse (renderL sl t)))).count '|' := by
        have := count_swpAux (subPipePipe
          (pyStrip (pyCollapse (renderL sl t)))) []
        simpa using this
    _ ≤ (pyStrip (pyCollapse (renderL sl t))).count '|' := by
        have := count_sppAux (pyStrip (pyCollapse (renderL sl t))) none
        simpa using this
    _ ≤ (pyCollapse (renderL sl t)).count '|' := count_stripBy_le pyWs _
    _ ≤ (renderL sl t).count '|' := count_collapseAux _ false
    _ ≤ 1 := le_of_eq h0

lemma count_le_of_matchAt (pat : List Char) :
    ∀ l, matchAt pat l = true → pat.count '|' ≤ l.count '|' := by
  induction pat with
  | nil => intro l _; simp
  | cons a as ih =>
    intro l h
    cases l with
    | nil => cases h
    | cons b bs =>
      rw [matchAt, Bool.and_eq_true] at h
      have hab : a = b := by simpa using h.1
      rw [count_cons_pipe, count_cons_pipe, hab]
      have := ih bs h.2
      omega

lemma count_le_of_containsSub (pat l : List Char)
    (h : containsSub pat l = true) : pat.count '|' ≤ l.count '|' := by
  induction l with
  | nil =>
    rw [containsSub] at h
    exact count_le_of_matchAt pat [] h
  | cons c rest ih =>
    rw [containsSub, Bool.or_eq_true] at h
    rcases h with h | h
    · exact count_le_of_matchAt pat _ h
    · have := ih h
      rw [count_cons_pipe]
      omega

/-- C4 counterexample: with a product field that itself contains pipe
characters, a returned title contains the doubled-pipe substring, so
the universally quantified claim fails. -/
theorem title_separator_counterexample :
    (title_variations "a | | | b" [] "" "" "" "" "" "" "None").any
      (fun t => strContains t "| |") = true := by
  rfl

/-- C4 amended: no returned title begins or ends with a separator
character (space, dash, pipe) for any input; and provided no input
field or keyword contains a pipe character, no returned title contains
the doubled-pipe substring. -/
theorem title_separator_amended (product : String) (main_kws : List String)
    (material style audience occasion personalization color season : String) :
    (∀ t ∈ title_variations product main_kws material style audience occasion
        personalization color season,
      hdNo isSep t.data = true ∧ lastNo isSep t.data = true) ∧
    ((product.data.count '|' = 0 ∧ material.data.count '|' = 0 ∧
      style.data.count '|' = 0 ∧ audience.data.count '|' = 0 ∧
      occasion.data.count '|' = 0 ∧ personalization.data.count '|' = 0 ∧
      color.data.count '|' = 0 ∧ ∀ k ∈ main_kws, k.data.count '|' = 0) →
      ∀ t ∈ title_variations product main_kws material style audience occasion
          personalization color season,
        containsSub ('|' :: ' ' :: ['|']) t.data = false) := by
  constructor
  · intro t ht
    obtain ⟨tp, _, rfl⟩ := title_variations_mem product main_kws material style
      audience occasion personalization color season t ht
    exact ⟨hdNo_stripBy isSep _, lastNo_stripBy isSep _⟩
  · intro h t ht
    obtain ⟨tp, htp, rfl⟩ := title_variations_mem product main_kws material
      style audience occasion personalization color season t ht
    have hle := fill_count_le _ (tvSlots_noPipe product main_kws material style
      audience occasion personalization color season h) tp htp
    by_contra hcon
    rw [Bool.not_eq_false] at hcon
    have := count_le_of_containsSub _ _ hcon
    have h2 : ('|' :: ' ' :: ['|']).count '|' = 2 := by decide
    omega

/-- Witness for the amended C4 at a concrete pipe-free input. -/
theorem title_separator_witness :
    (∀ t ∈ title_variations "Necklace" ["dainty"] "" "" "" "" "" "" "Winter",
      hdNo isSep t.data = true ∧ lastNo isSep t.data = true) ∧
    (∀ t ∈ title_variations "Necklace" ["dainty"] "" "" "" "" "" "" "Winter",
      containsSub ('|' :: ' ' :: ['|']) t.data = false) := by
  have h := title_separator_amended "Necklace" ["dainty"] "" "" "" "" "" ""
    "Winter"
  exact ⟨h.1, h.2 ⟨rfl, rfl, rfl, rfl, rfl, rfl, rfl, by decide⟩⟩

/-- Python space-join of a list of strings. -/
def joinSpace : List String → String
  | [] => ""
  | [x] => x
  | x :: y :: r => x ++ " " ++ joinSpace (y :: r)

/-- The per-candidate cleanup of the tag loops (app.py lines 208-209
and 230-231): collapse whitespace, strip, lowercase. -/
def tag_clean (s : String) : String := pyLowerStr ⟨pyStrip (pyCollapse s.data)⟩

/-- make_long_tail_tags from app.py lines 180-212. -/
def make_long_tail_tags (product : String) (main_kws : List String)
    (material style audience occasion season : String) : List String :=
  let product := clean_kw product
  let material := clean_kw material
  let style := clean_kw style
  let audience := clean_kw audience
  let occasion := clean_kw occasion
  let seasonal := seasonalFor season
  let kws := main_kws.filter (· ≠ "")
  let base := pyStripStr (joinSpace ([style, material, product].filter (· ≠ "")))
  let c1 := match kws with
    | k0 :: _ => [pyStripStr (k0 ++ " " ++ base)]
    | [] => []
  let c2 := match kws with
    | k0 :: k1 :: _ => [pyStripStr (k0 ++ " " ++ k1 ++ " " ++ product)]
    | _ => []
  let c3 := if audience ≠ "" then [pyStripStr (base ++ " for " ++ audience)] else []
  let c4 := if occasion ≠ "" then [pyStripStr (occasion ++ " " ++ product ++ " " ++ style)] else []
  let c5 := match seasonal with
    | s0 :: _ => [pyStripStr (s0 ++ " " ++ product ++ " gift")]
    | [] => []
  (dedupAppend [] ((c1 ++ c2 ++ c3 ++ c4 ++ c5).map tag_clean)).take 13

/-- make_buyer_intent_tags from app.py lines 214-234. -/
def make_buyer_intent_tags (audience occasion : String) : List String :=
  let audience := pyLowerStr (clean_kw audience)
  let occasion := pyLowerStr (clean_kw occasion)
  let tags := ["gift", "personalized", "custom", "handmade", "unique"] ++
    (if audience ≠ "" then [pyStripStr ("for " ++ audience)] else []) ++
    (if occasion ≠ "" then [pyStripStr (occasion ++ " gift")] else [])
  (dedupAppend [] (tags.map tag_clean)).take 13

/-- make_seasonality_tags from app.py lines 236-243. -/
def make_seasonality_tags (season : String) : List String :=
  (dedupAppend [] ((seasonalFor season).map (fun s => pyLowerStr (clean_kw s)))).take 13

set_option maxHeartbeats 2000000 in
lemma pyLowerChar_idem (c : Char) : pyLowerChar (pyLowerChar c) = pyLowerChar c := by
  unfold pyLowerChar
  split
  all_goals first
  | rfl
  | (rename_i heq
     split at heq <;> first | exact absurd heq (by decide) | contradiction)

lemma pyLowerStr_idem (s : String) : pyLowerStr (pyLowerStr s) = pyLowerStr s := by
  show (⟨(s.data.map pyLowerChar).map pyLowerChar⟩ : String) = ⟨s.data.map pyLowerChar⟩
  rw [List.map_map]
  congr 1
  exact List.map_congr_left (fun a _ => pyLowerChar_idem a)

/-- The properties C7 asserts of each tag list: at most 13 entries,
every entry lowercase (fixed by lowercasing), and no two entries equal
up to case. -/
def tagListOk (L : List String) : Prop :=
  L.length ≤ 13 ∧ (∀ t ∈ L, pyLowerStr t = t) ∧
  L.Pairwise (fun a b => pyLowerStr a ≠ pyLowerStr b)

lemma tagListOk_dedup (f : String → String)
    (hf : ∀ u : String, ∃ v, f u = pyLowerStr v) (l : List String) :
    tagListOk ((dedupAppend [] (l.map f)).take 13) := by
  have hlow : ∀ t ∈ (dedupAppend [] (l.map f)).take 13, pyLowerStr t = t := by
    intro t ht
    have h1 := (List.take_sublist 13 _).subset ht
    rcases dedupAppend_sub _ _ _ h1 with h2 | h2
    · cases h2
    · rcases List.mem_map.mp h2 with ⟨u, _, hfu⟩
      rcases hf u with ⟨v, hv⟩
      rw [← hfu, hv, pyLowerStr_idem]
  refine ⟨?_, hlow, ?_⟩
  · rw [List.length_take]
    exact min_le_left _ _
  · have hnd : ((dedupAppend [] (l.map f)).take 13).Nodup :=
      (List.take_sublist 13 _).nodup (dedupAppend_nodup _ [] List.nodup_nil)
    refine List.Pairwise.imp_of_mem ?_ hnd
    intro a b ha hb hne
    rw [hlow a ha, hlow b hb]
    exact hne

/-- C7: each of the three tag lists has at most 13 entries, is
entirely lowercase, and contains no duplicates under case-insensitive
comparison. -/
theorem tag_lists_contract (product : String) (main_kws : List String)
    (material style audience occasion season : String) :
    tagListOk (make_long_tail_tags product main_kws material style audience
      occasion season) ∧
    tagListOk (make_buyer_intent_tags audience occasion) ∧
    tagListOk (make_seasonality_tags season) := by
  have hf : ∀ u : String, ∃ v, tag_clean u = pyLowerStr v :=
    fun u => ⟨⟨pyStrip (pyCollapse u.data)⟩, rfl⟩
  refine ⟨?_, ?_, ?_⟩
  · exact tagListOk_dedup tag_clean hf _
  · exact tagListOk_dedup tag_clean hf _
  · exact tagListOk_dedup (fun s => pyLowerStr (clean_kw s))
      (fun u => ⟨clean_kw u, rfl⟩) _

/-- JSON values, as produced by json.loads.  Numbers are modelled as
integers (the source only ever compares a value against 1). -/
inductive JValue
  | str (s : String)
  | num (n : Int)
  | bool (b : Bool)
  | null
  | arr (xs : List JValue)
  | obj (fields : List (String × JValue))

/-- email.strip().lower(), the normalization applied to emails
throughout app.py (lines 36, 38, 40, 59, 63, 336). -/
def normEmail (s : String) : String := pyLowerStr (pyStripStr s)

/-- isinstance(e, str) filter: keep only string JSON values. -/
def asStr : JValue → Option String
  | .str s => some s
  | _ => none

/-- The flag test of app.py line 38: v is True or v == 1 (in Python,
True == 1, so the test accepts exactly the boolean True and the
number 1). -/
def proFlag : JValue → Bool
  | .bool true => true
  | .num 1 => true
  | _ => false

/-- The shape analysis of load_pro_users (app.py lines 32-41) applied
to already-parsed JSON data. -/
def pro_users_of (d : JValue) : List String :=
  match d with
  | .obj fields =>
    match lookupO fields "emails" with
    | some (.arr es) => (es.filterMap asStr).map normEmail
    | _ => fields.filterMap
        (fun kv => if proFlag kv.2 then some (normEmail kv.1) else none)
  | .arr es => (es.filterMap asStr).map normEmail
  | _ => []

/-- _read_json from app.py lines 20-27.  The outer Option models
whether the file exists; the inner Option models whether its content
parses (none for malformed content, caught by the except clause). -/
def read_json (file : Option (Option JValue)) (dflt : JValue) : JValue :=
  match file with
  | none => dflt
  | some none => dflt
  | some (some v) => v

/-- load_pro_users from app.py lines 32-41: read the store with
default empty dict, then analyse the shape.  The Python set is
modelled as the list of its elements; membership is what the
program observes. -/
def load_pro_users (file : Option (Option JValue)) : List String :=
  pro_users_of (read_json file (.obj []))

/-- load_usage from app.py lines 49-50. -/
def load_usage (file : Option (Option JValue)) : JValue :=
  read_json file (.obj [])

/-- Modelled from the spec: Python truthiness of a JSON value, the
reading of the spec's phrase mapping from email to a truthy flag.
Used only to compare the spec's wording with the source's actual
test (proFlag). -/
def pyTruthy : JValue → Bool
  | .str s => s ≠ ""
  | .num n => n ≠ 0
  | .bool b => b
  | .null => false
  | .arr xs => !xs.isEmpty
  | .obj fs => !fs.isEmpty

/-- The sidebar Pro check of app.py lines 336-337: the entered email
is stripped and lowercased, and Pro is active when it is non-empty
and a member of the Pro set. -/
def pro_active (raw : String) (pros : List String) : Bool :=
  let e := normEmail raw
  (e ≠ "") && pros.contains e

/-- In-memory usage record: date key to (email to count), as the
parsed usage_log.json dict. -/
abbrev Usage := List (String × List (String × Int))

/-- Python dict assignment d[k] = v: replace the binding if the key
is present, else append it. -/
def dset {α : Type} : List (String × α) → String → α → List (String × α)
  | [], k, v => [(k, v)]
  | (k', v') :: rest, k, v =>
    if k' = k then (k, v) :: rest else (k', v') :: dset rest k v

/-- FREE_DAILY_LIMIT from app.py line 14. -/
def FREE_DAILY_LIMIT : Int := 5

/-- get_free_used from app.py lines 58-60; today_key() is passed
explicitly as tk since the current date is an input of the
computation. -/
def get_free_used (usage : Usage) (email tk : String) : Int :=
  lookupD (lookupD usage tk []) (normEmail email) 0

/-- inc_free_used from app.py lines 62-66: setdefault on the date
key, then increment the email's counter (0 when absent). -/
def inc_free_used (usage : Usage) (email tk : String) : Usage :=
  let e := normEmail email
  let day := lookupD usage tk []
  dset usage tk (dset day e (lookupD day e 0 + 1))

/-- One generation request, per the module-level flow of app.py:
lines 357-363 refuse when the user is not Pro and the counter has
reached the limit; lines 425-428 increment the counter after a
successful generation for non-Pro users only.  Returns whether the
request succeeded together with the resulting usage record. -/
def generate_request (pro : Bool) (usage : Usage) (email tk : String) :
    Bool × Usage :=
  if ¬ pro ∧ get_free_used usage email tk ≥ FREE_DAILY_LIMIT then (false, usage)
  else if ¬ pro then (true, inc_free_used usage email tk)
  else (true, usage)

/-- n consecutive generation requests from the same email on the same
day; returns the number of successful requests and the final usage
record. -/
def run_requests (pro : Bool) (email tk : String) : Nat → Usage → Nat × Usage
  | 0, u => (0, u)
  | n + 1, u =>
    let r := generate_request pro u email tk
    let s := run_requests pro email tk n r.2
    ((if r.1 then 1 else 0) + s.1, s.2)

lemma pyWs_pyLowerChar (c : Char) : pyWs (pyLowerChar c) = pyWs c := by
  unfold pyLowerChar
  split <;> rfl

lemma dropWhile_map_lower (l : List Char) :
    (l.map pyLowerChar).dropWhile pyWs = (l.dropWhile pyWs).map pyLowerChar := by
  induction l with
  | nil => rfl
  | cons c rest ih =>
    rw [List.map_cons, List.dropWhile_cons, List.dropWhile_cons,
      pyWs_pyLowerChar]
    by_cases hc : pyWs c = true
    · simp only [hc, if_true]
      exact ih
    · simp [hc]

lemma rstripP_map_lower (l : List Char) :
    rstripP pyWs (l.map pyLowerChar) = (rstripP pyWs l).map pyLowerChar := by
  induction l with
  | nil => rfl
  | cons c rest ih =>
    rw [List.map_cons, rstripP, rstripP, ih]
    cases h : rstripP pyWs rest with
    | nil =>
      simp only [List.map_nil, pyWs_pyLowerChar]
      by_cases hc : pyWs c = true
      · simp [hc]
      · simp [hc]
    | cons d ds => simp

lemma pyStrip_map_lower (l : List Char) :
    pyStrip (l.map pyLowerChar) = (pyStrip l).map pyLowerChar := by
  unfold pyStrip stripBy
  rw [dropWhile_map_lower, rstripP_map_lower]

lemma pyStrip_idem (l : List Char) : pyStrip (pyStrip l) = pyStrip l :=
  stripBy_eq_self pyWs _ (hdNo_stripBy pyWs l) (lastNo_stripBy pyWs l)

lemma normEmail_idem (s : String) : normEmail (normEmail s) = normEmail s := by
  show (⟨(pyStrip ((pyStrip s.data).map pyLowerChar)).map pyLowerChar⟩ : String)
      = ⟨(pyStrip s.data).map pyLowerChar⟩
  rw [pyStrip_map_lower, pyStrip_idem, List.map_map]
  congr 1
  exact List.map_congr_left (fun a _ => pyLowerChar_idem a)

/-- C9: a missing durable-state file (outer none) or one with
malformed content (inner none) reads as its designated default: the
empty dict for _read_json's callers, so load_usage yields the empty
record and load_pro_users yields the empty set; no error is
surfaced (both functions are total). -/
theorem read_json_defaults :
    (∀ dflt : JValue,
      read_json none dflt = dflt ∧ read_json (some none) dflt = dflt) ∧
    load_usage none = JValue.obj [] ∧
    load_usage (some none) = JValue.obj [] ∧
    load_pro_users none = [] ∧
    load_pro_users (some none) = [] :=
  ⟨fun _ => ⟨rfl, rfl⟩, rfl, rfl, rfl, rfl⟩

/-- C8 counterexample: the string yes is truthy in Python, yet an
email mapped to it in the mapping-shaped store is not included in the
Pro set, because the source tests v is True or v == 1, not
truthiness. -/
theorem pro_users_truthy_counterexample :
    pyTruthy (JValue.str "yes") = true ∧
    load_pro_users (some (some (JValue.obj [("a@b.com", JValue.str "yes")]))) = [] :=
  ⟨rfl, rfl⟩

/-- C8 amended: load_pro_users accepts the three store shapes - the
emails-key shape and the flat list yield the stripped lowercased
string entries; in the mapping shape exactly the emails mapped to the
boolean True or the number 1 are included (not every truthy value) -
and the Pro membership test is applied to the stripped, lowercased
email, so it is case-insensitive. -/
theorem pro_users_shapes :
    (∀ (fields : List (String × JValue)) (es : List JValue),
      lookupO fields "emails" = some (JValue.arr es) →
      load_pro_users (some (some (JValue.obj fields))) =
        (es.filterMap asStr).map normEmail) ∧
    (∀ es : List JValue,
      load_pro_users (some (some (JValue.arr es))) =
        (es.filterMap asStr).map normEmail) ∧
    (∀ fields : List (String × JValue),
      lookupO fields "emails" = none →
      ∀ x : String,
        x ∈ load_pro_users (some (some (JValue.obj fields))) ↔
        ∃ kv ∈ fields, proFlag kv.2 = true ∧ x = normEmail kv.1) ∧
    (∀ (raw : String) (pros : List String),
      pro_active raw pros = pro_active (normEmail raw) pros) := by
  refine ⟨?_, ?_, ?_, ?_⟩
  · intro fields es h
    show pro_users_of (JValue.obj fields) = _
    simp only [pro_users_of]
    rw [h]
  · intro es
    rfl
  · intro fields h x
    show x ∈ pro_users_of (JValue.obj fields) ↔ _
    simp only [pro_users_of]
    rw [h]
    rw [List.mem_filterMap]
    constructor
    · rintro ⟨kv, hkv, hx⟩
      by_cases hp : proFlag kv.2 = true
      · rw [if_pos hp] at hx
        exact ⟨kv, hkv, hp, (Option.some_injective _ hx).symm⟩
      · rw [if_neg hp] at hx
        cases hx
    · rintro ⟨kv, hkv, hp, hx⟩
      exact ⟨kv, hkv, by rw [if_pos hp, hx]⟩
  · intro raw pros
    simp only [pro_active, normEmail_idem]

/-- Witness for the amended C8 at concrete stores and a concrete
mixed-case email. -/
theorem pro_users_shapes_witness :
    load_pro_users (some (some (JValue.obj
        [("emails", JValue.arr [JValue.str " A@B.com ", JValue.num 3])]))) =
      ([JValue.str " A@B.com ", JValue.num 3].filterMap asStr).map normEmail ∧
    load_pro_users (some (some (JValue.arr [JValue.str "X@Y.com"]))) =
      ([JValue.str "X@Y.com"].filterMap asStr).map normEmail ∧
    ("x@y.com" ∈ load_pro_users (some (some (JValue.obj
        [("x@y.com", JValue.bool true), ("z@w.com", JValue.str "yes")]))) ↔
      ∃ kv ∈ [("x@y.com", JValue.bool true), ("z@w.com", JValue.str "yes")],
        proFlag kv.2 = true ∧ "x@y.com" = normEmail kv.1) ∧
    pro_active " A@B.Com " ["a@b.com"] =
      pro_active (normEmail " A@B.Com ") ["a@b.com"] := by
  have h := pro_users_shapes
  exact ⟨h.1 [("emails", JValue.arr [JValue.str " A@B.com ", JValue.num 3])]
      [JValue.str " A@B.com ", JValue.num 3] rfl,
    h.2.1 [JValue.str "X@Y.com"],
    h.2.2.1 [("x@y.com", JValue.bool true), ("z@w.com", JValue.str "yes")]
      rfl "x@y.com",
    h.2.2.2 " A@B.Com " ["a@b.com"]⟩

lemma lookupO_dset_self {α : Type} (d : List (String × α)) (k : String) (v : α) :
    lookupO (dset d k v) k = some v := by
  induction d with
  | nil => simp [dset, lookupO]
  | cons kv rest ih =>
    obtain ⟨k', v'⟩ := kv
    rw [dset]
    by_cases h : k' = k
    · rw [if_pos h, lookupO, if_pos rfl]
    · rw [if_neg h, lookupO, if_neg h]
      exact ih

lemma lookupO_dset_other {α : Type} (d : List (String × α)) (k : String) (v : α)
    (k' : String) (h : k' ≠ k) : lookupO (dset d k v) k' = lookupO d k' := by
  induction d with
  | nil =>
    simp only [dset, lookupO]
    rw [if_neg (fun hh => h hh.symm)]
  | cons kv rest ih =>
    obtain ⟨k0, v0⟩ := kv
    rw [dset]
    by_cases h0 : k0 = k
    · rw [if_pos h0, lookupO, lookupO, if_neg (fun hh => h hh.symm), h0,
        if_neg (fun hh => h hh.symm)]
    · rw [if_neg h0, lookupO, lookupO]
      by_cases h1 : k0 = k'
      · rw [if_pos h1, if_pos h1]
      · rw [if_neg h1, if_neg h1]
        exact ih

/-- C10: inc_free_used increments exactly the entry for the given day
and normalized email by 1 (creating it as 1 when absent, since the
absent counter reads as 0), and leaves every other date key and every
other email under the same date unchanged. -/
theorem inc_free_used_frame (usage : Usage) (email tk : String) :
    get_free_used (inc_free_used usage email tk) email tk =
      get_free_used usage email tk + 1 ∧
    (∀ d, d ≠ tk →
      lookupO (inc_free_used usage email tk) d = lookupO usage d) ∧
    (∀ e, e ≠ normEmail email →
      lookupO (lookupD (inc_free_used usage email tk) tk []) e =
        lookupO (lookupD usage tk []) e) := by
  refine ⟨?_, ?_, ?_⟩
  · unfold get_free_used inc_free_used lookupD
    rw [lookupO_dset_self, Option.getD_some, lookupO_dset_self,
      Option.getD_some]
  · intro d hd
    unfold inc_free_used
    exact lookupO_dset_other usage tk _ d hd
  · intro e he
    unfold inc_free_used lookupD
    rw [lookupO_dset_self, Option.getD_some]
    exact lookupO_dset_other _ (normEmail email) _ e he

/-- Witness for C10: a concrete two-day record; the targeted entry is
incremented from 3 to 4 while the other date and the other email of
the same day are untouched. -/
theorem inc_free_used_frame_witness :
    get_free_used (inc_free_used
        [("2024-01-01", [("a@b.com", (3 : Int))]),
         ("2024-01-02", [("c@d.com", (7 : Int))])] " A@B.com " "2024-01-01")
      " A@B.com " "2024-01-01" =
      get_free_used
        [("2024-01-01", [("a@b.com", (3 : Int))]),
         ("2024-01-02", [("c@d.com", (7 : Int))])] " A@B.com " "2024-01-01" + 1 ∧
    lookupO (inc_free_used
        [("2024-01-01", [("a@b.com", (3 : Int))]),
         ("2024-01-02", [("c@d.com", (7 : Int))])] " A@B.com " "2024-01-01")
      "2024-01-02" =
      lookupO
        [("2024-01-01", [("a@b.com", (3 : Int))]),
         ("2024-01-02", [("c@d.com", (7 : Int))])] "2024-01-02" ∧
    lookupO (lookupD (inc_free_used
        [("2024-01-01", [("a@b.com", (3 : Int))]),
         ("2024-01-02", [("c@d.com", (7 : Int))])] " A@B.com " "2024-01-01")
      "2024-01-01" []) "c@d.com" =
      lookupO (lookupD
        [("2024-01-01", [("a@b.com", (3 : Int))]),
         ("2024-01-02", [("c@d.com", (7 : Int))])] "2024-01-01" []) "c@d.com" := by
  have h := inc_free_used_frame
    [("2024-01-01", [("a@b.com", (3 : Int))]),
     ("2024-01-02", [("c@d.com", (7 : Int))])] " A@B.com " "2024-01-01"
  exact ⟨h.1, h.2.1 "2024-01-02" (by decide), h.2.2 "c@d.com" (by decide)⟩

lemma get_inc (usage : Usage) (email tk : String) :
    get_free_used (inc_free_used usage email tk) email tk =
      get_free_used usage email tk + 1 := by
  unfold get_free_used inc_free_used lookupD
  rw [lookupO_dset_self, Option.getD_some, lookupO_dset_self, Option.getD_some]

lemma generate_request_pro (u : Usage) (email tk : String) :
    generate_request true u email tk = (true, u) := by
  unfold generate_request
  simp

lemma run_requests_succ_fst (pro : Bool) (email tk : String) (n : Nat)
    (u : Usage) :
    (run_requests pro email tk (n + 1) u).1 =
      (if (generate_request pro u email tk).1 then 1 else 0) +
        (run_requests pro email tk n (generate_request pro u email tk).2).1 :=
  rfl

lemma run_requests_succ_snd (pro : Bool) (email tk : String) (n : Nat)
    (u : Usage) :
    (run_requests pro email tk (n + 1) u).2 =
      (run_requests pro email tk n (generate_request pro u email tk).2).2 :=
  rfl

lemma run_requests_pro (email tk : String) :
    ∀ (n : Nat) (u : Usage), run_requests true email tk n u = (n, u) := by
  intro n
  induction n with
  | zero => intro u; rfl
  | succ n ih =>
    intro u
    refine Prod.ext ?_ ?_
    · rw [run_requests_succ_fst]
      simp [generate_request_pro, ih, Nat.add_comm]
    · rw [run_requests_succ_snd]
      simp [generate_request_pro, ih]

lemma run_requests_free (email tk : String) :
    ∀ (n : Nat) (u : Usage) (c : Nat),
      get_free_used u email tk = (c : Int) →
      (run_requests false email tk n u).1 = min n (5 - c) ∧
      get_free_used (run_requests false email tk n u).2 email tk =
        ((c + min n (5 - c) : Nat) : Int) := by
  intro n
  induction n with
  | zero =>
    intro u c h
    simp [run_requests, h]
  | succ n ih =>
    intro u c h
    by_cases hc : 5 ≤ c
    · have hge : get_free_used u email tk ≥ FREE_DAILY_LIMIT := by
        rw [h]
        show (5 : Int) ≤ (c : Int)
        exact_mod_cast hc
      have hgen : generate_request false u email tk = (false, u) := by
        unfold generate_request
        rw [if_pos ⟨by simp, hge⟩]
      obtain ⟨ih1, ih2⟩ := ih u c h
      constructor
      · rw [run_requests_succ_fst, hgen]
        simp only [Bool.false_eq_true, if_false]
        rw [ih1]
        omega
      · rw [run_requests_succ_snd, hgen]
        rw [ih2]
        congr 1
        omega
    · have hlt : ¬ (get_free_used u email tk ≥ FREE_DAILY_LIMIT) := by
        rw [h]
        show ¬ ((5 : Int) ≤ (c : Int))
        exact_mod_cast hc
      have hgen : generate_request false u email tk =
          (true, inc_free_used u email tk) := by
        unfold generate_request
        rw [if_neg (fun hh => hlt hh.2), if_pos (by simp)]
      have hinc : get_free_used (inc_free_used u email tk) email tk =
          ((c + 1 : Nat) : Int) := by
        rw [get_inc, h]
        push_cast
        ring
      obtain ⟨ih1, ih2⟩ := ih (inc_free_used u email tk) (c + 1) hinc
      constructor
      · rw [run_requests_succ_fst]
        have hb : (if (generate_request false u email tk).1 then 1 else 0) = 1 := by
          rw [hgen]
          rfl
        rw [hb, hgen, ih1]
        omega
      · rw [run_requests_succ_snd, hgen]
        rw [ih2]
        congr 1
        omega

/-- C1: from a counter at 0, a non-Pro email's first 5 requests each
succeed and increment the counter by exactly 1, and every request
past the 5th is refused without further increment: after n requests
exactly min n 5 succeeded and the counter reads min n 5.  A
Pro-listed email succeeds on every one of any number of requests and
the usage record is never changed. -/
theorem usage_gate_limit (email tk : String) :
    (∀ usage : Usage, get_free_used usage email tk = 0 →
      ∀ n : Nat,
        (run_requests false email tk n usage).1 = min n 5 ∧
        get_free_used (run_requests false email tk n usage).2 email tk =
          ((min n 5 : Nat) : Int)) ∧
    (∀ (n : Nat) (usage : Usage), run_requests true email tk n usage = (n, usage)) := by
  constructor
  · intro usage h n
    have h0 : get_free_used usage email tk = ((0 : Nat) : Int) := by
      rw [h]; rfl
    obtain ⟨h1, h2⟩ := run_requests_free email tk n usage 0 h0
    constructor
    · rw [h1]
    · rw [h2]
      congr 1
      omega
  · exact run_requests_pro email tk

/-- Witness for C1: from the empty usage record, 6 non-Pro requests
yield 5 successes and a counter of 5, while 6 Pro requests yield 6
successes and leave the record empty. -/
theorem usage_gate_limit_witness :
    ((run_requests false "u@example.com" "2024-01-01" 6 []).1 = min 6 5 ∧
     get_free_used (run_requests false "u@example.com" "2024-01-01" 6 []).2
       "u@example.com" "2024-01-01" = ((min 6 5 : Nat) : Int)) ∧
    run_requests true "u@example.com" "2024-01-01" 6 [] = (6, []) := by
  have h := usage_gate_limit "u@example.com" "2024-01-01"
  exact ⟨h.1 [] rfl 6, h.2 6 []⟩

end EtsySeo
